import Mathlib

/-!
Verification of the giro package (UNO-SOFT/giro, giro.go) against its
natural-language specification.

Modelling conventions:
* A Go string is modelled as a `List Char` of Unicode code points (`GoStr`).
  Go's byte-oriented `len` is modelled by `golen` (sum of UTF-8 sizes);
  the byte-positional operations of `checkAppend` only fire on ASCII
  prefixes, where byte positions and code-point positions coincide
  (see the comment at `normalizeRec`).
* Fallible Go functions returning `(value, error)` pairs are modelled as
  `List Hitelezo × Option GoError`; a runtime panic (index out of range)
  is modelled by the `Except` layer of `PRes`.
* External collaborators (HTTP, the tabula and pdftotext subprocesses, the
  spreadsheet decoding libraries) are modelled by the data they hand back
  to the code under verification (`ParseEnv`, `Candidate`).
-/

/-- Model of a Go string: the list of its Unicode code points. -/
abbrev GoStr := List Char

/-- Go `len(s)`: the number of bytes of the UTF-8 encoding. -/
def golen (s : GoStr) : Nat := (s.map Char.utf8Size).sum

/-- Go `unicode.IsSpace`: Unicode white space as used by `strings.TrimSpace`
and `bytes.TrimSpace` (ASCII space characters, NEL, NBSP, and the
Unicode `White_Space` code points). -/
def goIsSpace (c : Char) : Bool :=
  let n := c.toNat
  n == 32 || (9 ≤ n && n ≤ 13) || n == 0x85 || n == 0xA0 ||
    n == 0x1680 || (0x2000 ≤ n && n ≤ 0x200A) || n == 0x2028 || n == 0x2029 ||
    n == 0x202F || n == 0x205F || n == 0x3000

/-- Go `strings.TrimSpace` / `bytes.TrimSpace`. -/
def goTrimSpace (s : GoStr) : GoStr :=
  ((s.dropWhile goIsSpace).reverse.dropWhile goIsSpace).reverse

/-- Go `strings.ReplaceAll(s, "\x00", "")`: remove embedded NUL characters. -/
def removeNulls (s : GoStr) : GoStr := s.filter (fun c => c ≠ Char.ofNat 0)

/-- The per-field normalization of `checkAppend`:
`strings.TrimSpace(strings.ReplaceAll(*p, "\x00", ""))`. -/
def normField (s : GoStr) : GoStr := goTrimSpace (removeNulls s)

/-- ASCII decimal digit test, Go `'0' <= r && r <= '9'`. -/
def isDigitChar (c : Char) : Bool := '0' ≤ c && c ≤ '9'

/-- giro.go: `type Hitelezo struct { Bankszerv, BIC, Nev, Irszam, Cim string }`. -/
structure Hitelezo where
  Bankszerv : GoStr
  BIC : GoStr
  Nev : GoStr
  Irszam : GoStr
  Cim : GoStr
deriving DecidableEq, Inhabited

/-- The all-zero Go value `Hitelezo{}`. -/
def emptyHitelezo : Hitelezo := ⟨[], [], [], [], []⟩

/-- The normalization step of `checkAppend` (giro.go): trim each of the four
fields (`Bankszerv`, `Nev`, `Irszam`, `Cim`) and remove NULs, then, when the
postal code is empty, split a leading 4-digit postal code out of the address.

Byte-level faithfulness: the Go condition is
`len(Cim) > 5 && IndexByte(Cim, ' ') == 4 && IndexFunc(Cim[:4], notDigit) < 0`.
`IndexFunc(Cim[:4], notDigit) < 0` forces the first four BYTES to decode to
ASCII digits (a byte of a multi-byte rune decodes to a non-digit rune), so
the first four bytes are the first four code points; then byte 4 is code
point 4, and `IndexByte(Cim, ' ') == 4` reduces to "code point 4 is a space"
(bytes 0..3 are digits, hence not spaces).  `Cim[:4]` and `Cim[5:]` are then
`take 4` and `drop 5` on code points, and `len(Cim)` is `golen Cim`. -/
def normalizeRec (h : Hitelezo) : Hitelezo :=
  let b := normField h.Bankszerv
  let n := normField h.Nev
  let i := normField h.Irszam
  let c := normField h.Cim
  if i == [] && decide (5 < golen c) && (c.take 4).all isDigitChar &&
      c.get? 4 == some ' ' then
    { Bankszerv := b, BIC := h.BIC, Nev := n, Irszam := c.take 4, Cim := c.drop 5 }
  else
    { Bankszerv := b, BIC := h.BIC, Nev := n, Irszam := i, Cim := c }

/-- giro.go `checkAppend`: normalizeRec the candidate record, then append it to
`records` exactly when it is not the all-empty record and its `Bankszerv`
field is exactly 8 bytes long. -/
def checkAppend (records : List Hitelezo) (rec0 : Hitelezo) : List Hitelezo :=
  let r := normalizeRec rec0
  if r ≠ emptyHitelezo ∧ golen r.Bankszerv = 8 then records ++ [r] else records

example : normalizeRec ⟨"10002003".toList, [], " Nev ".toList, [], "1139 Bp".toList⟩ =
    ⟨"10002003".toList, [], "Nev".toList, "1139".toList, "Bp".toList⟩ := by decide

example : normalizeRec ⟨[], [], [], [], "1139  Bp".toList⟩ =
    ⟨[], [], [], "1139".toList, " Bp".toList⟩ := by decide

/-- Model of Go `error` values produced or inspected by giro.go.
`msg` stands for an opaque library/formatted error carrying its text. -/
inductive GoError where
  | eof
  | notFound
  | panicIdx
  | join (es : List GoError)
  | wrapPair (a b : GoError)
  | msg (s : GoStr)

mutual

/-- Model of `errors.Is(e, ErrNotFound)`: search the unwrap tree for the
`ErrNotFound` sentinel.  `fmt.Errorf("%w: %w", ...)` unwraps to both
operands, `errors.Join` unwraps to its list. -/
def errorsIsNotFound : GoError → Bool
  | .notFound => true
  | .wrapPair a b => errorsIsNotFound a || errorsIsNotFound b
  | .join es => anyNotFound es
  | _ => false

/-- `errorsIsNotFound` over the members of an `errors.Join` list. -/
def anyNotFound : List GoError → Bool
  | [] => false
  | e :: es => errorsIsNotFound e || anyNotFound es

end

/-- Go `strings.Contains(hay, needle)` / `bytes.Contains` (ASCII needles,
where byte-level and code-point-level containment agree). -/
def goContains : GoStr → GoStr → Bool
  | _, [] => true
  | [], _ :: _ => false
  | hay@(_ :: t), needle => needle.isPrefixOf hay || goContains t needle

/-- Go `strings.Contains(err.Error(), sub)` at the spreadsheet-open boundary.
The errors tested by `Parse` come opaque from the excelize library, modelled
as `msg`; the built-in sentinels render as their Go text. -/
def errTextContains (e : GoError) (sub : GoStr) : Bool :=
  match e with
  | .msg s => goContains s sub
  | .eof => goContains "EOF".toList sub
  | .notFound => goContains "not found".toList sub
  | _ => false

/-- A Go `(records, err)` return value. -/
abbrev GoRet := List Hitelezo × Option GoError

/-- Result of a parse function: `.error` models a runtime panic
(index out of range), which in Go aborts the whole call chain;
`.ok (records, err)` models a normal Go return. -/
abbrev PRes := Except GoError GoRet

/-- The test of the final cleanup pass in `Parse` (giro.go):
`hit[i].Bankszerv == "" || hit[i].Nev == "" || (hit[i].Irszam == "" && hit[i].Cim == "")`. -/
def cleanupInvalid (h : Hitelezo) : Bool :=
  h.Bankszerv.isEmpty || h.Nev.isEmpty || (h.Irszam.isEmpty && h.Cim.isEmpty)

/-- One removal step of the cleanup loop:
`hit[i] = hit[len(hit)-1]; hit = hit[:len(hit)-1]` (swap with last, truncate). -/
def removeSwap (hit : List Hitelezo) (i : Nat) : List Hitelezo :=
  (hit.set i (hit.getD (hit.length - 1) emptyHitelezo)).dropLast

/-- The cleanup loop of `Parse`, indexed by explicit fuel.  Each loop
iteration either advances `i` or shrinks the list, so `hit.length - i`
strictly decreases and `fuel = hit.length` at entry is enough; the
`fuel = 0` case is then only reached with `i ≥ hit.length`, the loop's
own exit condition. -/
def cleanupAux : Nat → List Hitelezo → Nat → List Hitelezo
  | 0, hit, _ => hit
  | fuel + 1, hit, i =>
    if i < hit.length then
      if cleanupInvalid (hit.getD i emptyHitelezo) then
        cleanupAux fuel (removeSwap hit i) i
      else
        cleanupAux fuel hit (i + 1)
    else hit

/-- The final cleanup pass of `Parse` (giro.go): remove, by swap-with-last,
every record missing `Bankszerv`, `Nev`, or both `Irszam` and `Cim`. -/
def cleanup (hit : List Hitelezo) : List Hitelezo := cleanupAux hit.length hit 0

example : cleanup [⟨"b".toList, [], "n".toList, "i".toList, []⟩] =
    [⟨"b".toList, [], "n".toList, "i".toList, []⟩] := by decide

example :
    cleanup [⟨"1".toList, [], "a".toList, "i".toList, []⟩,
             ⟨"2".toList, [], [], "i".toList, []⟩,
             ⟨"3".toList, [], "c".toList, "i".toList, []⟩,
             ⟨"4".toList, [], "d".toList, "i".toList, []⟩] =
    [⟨"1".toList, [], "a".toList, "i".toList, []⟩,
     ⟨"4".toList, [], "d".toList, "i".toList, []⟩,
     ⟨"3".toList, [], "c".toList, "i".toList, []⟩] := by decide

/-- The header sentinel inspected by `ParseXLSX`:
`"Address of the branch office"`. -/
def xlsxSentinel : GoStr := "Address of the branch office".toList

/-- The data-row loop of `ParseXLSX` (giro.go): map each row's first four
cells onto the destination fields selected by the header
(`{code, name, postal code, address}` by default,
`{code, BIC, name, address}` when `noIrszam`), then `checkAppend`.
`row[j]` with fewer than 4 cells is a runtime panic (`panicIdx`).
In Go the scratch record persists across rows, but the fields not targeted
by `dst` keep their zero value `""`, so each row's record is as built here. -/
def parseXLSXRows (noIrszam : Bool) : List Hitelezo → List (List GoStr) →
    Except GoError (List Hitelezo)
  | records, [] => .ok records
  | records, row :: rest =>
    if row.length < 4 then .error .panicIdx
    else
      let rec0 : Hitelezo :=
        if noIrszam then
          { Bankszerv := row.getD 0 [], BIC := row.getD 1 [],
            Nev := row.getD 2 [], Irszam := [], Cim := row.getD 3 [] }
        else
          { Bankszerv := row.getD 0 [], BIC := [],
            Nev := row.getD 1 [], Irszam := row.getD 2 [], Cim := row.getD 3 [] }
      parseXLSXRows noIrszam (checkAppend records rec0) rest

/-- `ParseXLSX` (giro.go) after the workbook has been decoded: `rows` are the
rows of the first sheet as handed back by the excelize library.  The first
row is the header: its fourth cell (`row[3]`, a panic when absent) selects
the layout; the remaining rows are data rows. -/
def ParseXLSX : List (List GoStr) → Except GoError (List Hitelezo)
  | [] => .ok []
  | header :: rest =>
    if header.length < 4 then .error .panicIdx
    else parseXLSXRows (header.getD 3 [] == xlsxSentinel) [] rest

/-- Result of `xls.OpenReader` + `wb.GetSheet(0)` at the legacy-spreadsheet
library boundary.  A row is `none` when `sheet.Row(n) == nil`; otherwise it
is the cell values starting at the row's first populated column
(`row.Col(row.FirstCol()+j)`, which the library answers with `""` out of
range, modelled by `getD`). -/
inductive XlsResult where
  | openFail
  | noSheet
  | sheet (rows : List (Option (List GoStr)))

/-- The row loop of `ParseXLS` (giro.go): skip row 0 (`skip = 1`) and nil
rows, map four consecutive cells to `{code, name, postal code, address}`,
`checkAppend` each. -/
def parseXLSRows : List Hitelezo → Bool → List (Option (List GoStr)) → List Hitelezo
  | records, _, [] => records
  | records, true, _ :: rest => parseXLSRows records false rest
  | records, false, none :: rest => parseXLSRows records false rest
  | records, false, some cells :: rest =>
    let rec0 : Hitelezo :=
      { Bankszerv := cells.getD 0 [], BIC := [], Nev := cells.getD 1 [],
        Irszam := cells.getD 2 [], Cim := cells.getD 3 [] }
    parseXLSRows (checkAppend records rec0) false rest

/-- `ParseXLSX` as called on a byte stream: `xlsxOpen` is the outcome of
`excelize.OpenReader` plus reading the first sheet's rows; an open failure
is a returned error (`(nil, err)` in Go). -/
def ParseXLSXm (xlsxOpen : Except GoError (List (List GoStr))) : PRes :=
  match xlsxOpen with
  | .error e => .ok ([], some e)
  | .ok rows =>
    match ParseXLSX rows with
    | .error p => .error p
    | .ok records => .ok (records, none)

/-- `ParseXLS` (giro.go): when the legacy open fails, fall back to
`ParseXLSX` on the same stream; when sheet 0 is missing, return the
formatted error; otherwise run the row loop. -/
def ParseXLS (xlsOpen : XlsResult)
    (xlsxOpen : Except GoError (List (List GoStr))) : PRes :=
  match xlsOpen with
  | .openFail => ParseXLSXm xlsxOpen
  | .noSheet => .ok ([], some (.msg "this XLS file does not contain sheet no 0".toList))
  | .sheet rows => .ok (parseXLSRows [] true rows, none)

/-- `bufio.ScanLines`: drop a final `'\r'` from a line. -/
def dropCR (l : GoStr) : GoStr :=
  if l.getLast? == some '\r' then l.dropLast else l

/-- Accumulator-based splitter for `bufio.Scanner` with `ScanLines`:
tokens are newline-terminated lines (CR stripped); a non-empty remainder
at EOF is a final token; a trailing newline yields no extra empty token. -/
def scanLinesAux (cur : GoStr) : List Char → List GoStr
  | [] => if cur == [] then [] else [dropCR cur.reverse]
  | c :: rest =>
    if c == '\n' then dropCR cur.reverse :: scanLinesAux [] rest
    else scanLinesAux (c :: cur) rest

/-- The token stream `bufio.Scanner` produces from the input text. -/
def scanLines (s : List Char) : List GoStr := scanLinesAux [] s

/-- `processLines` (giro.go, inside `parseTXT`): the page buffer holds 4
column-major quarters (`cols = len(lines)/4`, integer division); record `i`
takes its fields from positions `q*cols+i` for quarters `q = 0..3`, and each
is `checkAppend`-ed.  Lines beyond `4*cols` are ignored. -/
def processLines (records : List Hitelezo) (lines : List GoStr) : List Hitelezo :=
  let cols := lines.length / 4
  (List.range cols).foldl
    (fun acc i => checkAppend acc
      { Bankszerv := lines.getD (0 * cols + i) [], BIC := [],
        Nev := lines.getD (1 * cols + i) [],
        Irszam := lines.getD (2 * cols + i) [],
        Cim := lines.getD (3 * cols + i) [] })
    records

/-- The scanner loop of `parseTXT` (giro.go), over the token stream.
State: accumulated `records`, the page buffer `lines`, and `numberSeen`.
A line is skipped when empty, when no digit-initial line has been seen yet
and it does not start with a digit, or when it contains `"nyes Egyszer"` or
ends with `" oldal"`.  A line starting with a form feed (byte 12) flushes
the page buffer; if nothing follows the form feed the loop breaks (the
post-loop flush then sees an empty buffer).  Surviving lines are appended
whitespace-trimmed. -/
def parseTXTLoop (records : List Hitelezo) (lines : List GoStr)
    (numberSeen : Bool) : List GoStr → List Hitelezo
  | [] => processLines records lines
  | line :: rest =>
    if line.length = 0 then parseTXTLoop records lines numberSeen rest
    else
      let c0 := line.headD ' '
      if !numberSeen && !isDigitChar c0 then
        parseTXTLoop records lines false rest
      else
        if goContains line "nyes Egyszer".toList ||
            " oldal".toList.isSuffixOf line then
          parseTXTLoop records lines true rest
        else
          if c0 == Char.ofNat 12 then
            let records2 := processLines records lines
            if line.tail == [] then processLines records2 []
            else parseTXTLoop records2 [goTrimSpace line] true rest
          else
            parseTXTLoop records (lines ++ [goTrimSpace line]) true rest

/-- `parseTXT` (giro.go): scan the text into lines and run the loop;
the Go function always returns a `nil` error. -/
def parseTXT (input : List Char) : GoRet :=
  (parseTXTLoop [] [] false (scanLines input), none)

/-- The CSV-row loop of `parsePDFTabula` (giro.go): each row's first four
fields are mapped directly — with no validation — onto
`{code, name, postal code, address}`; `row[k]` with fewer than 4 fields is
a runtime panic. -/
def tabulaRows : List Hitelezo → List (List GoStr) → Except GoError (List Hitelezo)
  | hit, [] => .ok hit
  | hit, row :: rest =>
    if row.length < 4 then .error .panicIdx
    else tabulaRows
      (hit ++ [{ Bankszerv := row.getD 0 [], BIC := [], Nev := row.getD 1 [],
                 Irszam := row.getD 2 [], Cim := row.getD 3 [] }]) rest

/-- What the environment hands back to the parsing pipeline: the outcomes of
the external subprocesses and spreadsheet decoders on this input stream. -/
structure ParseEnv where
  /-- CSV rows parsed from the tabula subprocess output; `.error` covers
  temp-file/subprocess setup failures and CSV read errors. -/
  tabulaCSV : Except GoError (List (List GoStr))
  /-- `cmd.Wait()` outcome for the tabula subprocess. -/
  tabulaWait : Option GoError
  /-- pdftotext subprocess output text; `.error` covers pipe/start failures. -/
  pdftotextOut : Except GoError (List Char)
  /-- `cmd.Wait()` outcome for the pdftotext subprocess. -/
  pdftotextWait : Option GoError
  /-- `excelize.OpenReader` outcome plus first-sheet rows. -/
  xlsxOpen : Except GoError (List (List GoStr))
  /-- `xls.OpenReader` + `GetSheet(0)` outcome. -/
  xlsOpen : XlsResult

/-- `parsePDFTabula` (giro.go): on subprocess/CSV failure the (possibly
partial) records travel with a non-nil error, which `ParsePDF` discards; a
clean CSV read returns the rows' records together with the `Wait` outcome. -/
def parsePDFTabula (env : ParseEnv) : PRes :=
  match env.tabulaCSV with
  | .error e => .ok ([], some e)
  | .ok rows =>
    match tabulaRows [] rows with
    | .error p => .error p
    | .ok hit => .ok (hit, env.tabulaWait)

/-- `parsePDFPdfToText` (giro.go): run pdftotext, feed its output to
`parseTXT` (which never errors), and surface a `Wait` failure wrapped with
the command line. -/
def parsePDFPdfToText (env : ParseEnv) : PRes :=
  match env.pdftotextOut with
  | .error e => .ok ([], some e)
  | .ok txt =>
    let hit := (parseTXT txt).1
    match env.pdftotextWait with
    | some we => .ok (hit, some (.wrapPair (.msg "pdftotext - -".toList) we))
    | none => .ok (hit, none)

/-- `ParsePDF` (giro.go): structured tabula extraction first; on any
returned error fall back to pdftotext on the reassembled stream.  A panic
propagates. -/
def ParsePDF (env : ParseEnv) : PRes :=
  match parsePDFTabula env with
  | .error p => .error p
  | .ok (hit, none) => .ok (hit, none)
  | .ok (_, some _) => parsePDFPdfToText env

/-- The `%PDF-1` magic, as bytes. -/
def pdfMagic : List Nat := "%PDF-1".toList.map Char.toNat

/-- `Parse` (giro.go) on an input byte stream: peek 1024 bytes (a stream
shorter than 1024 bytes makes `ReadAt` return `io.EOF`, which is returned
as the error with no records); route `%PDF-1` prefixes to `ParsePDF`
(returned directly, without the cleanup pass); otherwise try `ParseXLSX`,
fall back to `ParseXLS` when the error text contains `"not a valid zip"`
or `"unsupported"`, and apply the final `cleanup` pass to the records. -/
def Parse (input : List Nat) (env : ParseEnv) : PRes :=
  if input.length < 1024 then .ok ([], some .eof)
  else if pdfMagic.isPrefixOf input then ParsePDF env
  else
    match ParseXLSXm env.xlsxOpen with
    | .error p => .error p
    | .ok (hit, err) =>
      match err with
      | none => .ok (cleanup hit, none)
      | some e =>
        if errTextContains e "not a valid zip".toList ||
            errTextContains e "unsupported".toList then
          match ParseXLS env.xlsOpen env.xlsxOpen with
          | .error p => .error p
          | .ok (hit2, err2) => .ok (cleanup hit2, err2)
        else .ok (cleanup hit, some e)

/-- Go string comparison `a < b`: lexicographic on bytes, equivalently (as
UTF-8 preserves code-point order) lexicographic on code points. -/
def goStrLt : GoStr → GoStr → Bool
  | [], [] => false
  | [], _ :: _ => true
  | _ :: _, [] => false
  | a :: as, b :: bs => if a < b then true else if b < a then false else goStrLt as bs

/-- Go `path.Base` step 1: strip trailing slashes. -/
def stripSlashes (s : GoStr) : GoStr := (s.reverse.dropWhile (· == '/')).reverse

/-- Go `path.Base` step 2: everything after the last slash. -/
def afterLastSlash (s : GoStr) : GoStr := (s.reverse.takeWhile (· ≠ '/')).reverse

/-- Go `path.Base`: `"."` for the empty path, otherwise the final element
after removing trailing slashes, `"/"` when the path is all slashes. -/
def pathBase (s : GoStr) : GoStr :=
  if s = [] then ['.']
  else
    let t := stripSlashes s
    let u := afterLastSlash t
    if u = [] then ['/'] else u

/-- One discovered candidate link of `SearchXLSURL`, with what its
concurrent resolution task observed:
`absOk` is `url.Parse` succeeding with a non-empty scheme on an absolute
URL; `resolved` is the `(status code, Location header)` of the first
successful no-redirect GET (`none` when every retry failed); `errAcc` holds
the errors appended for failed attempts (appended also by tasks that later
succeed on retry). -/
structure Candidate where
  absOk : Bool
  resolved : Option (Nat × GoStr)
  errAcc : List GoError

/-- The qualification test a resolution task applies before sending to the
result channel: absolute URL, response status exactly 302, non-empty
`path.Base` of the `Location` header, and pattern match on that base name. -/
def qualify (pat : GoStr → Bool) (c : Candidate) : Option GoStr :=
  if !c.absOk then none
  else
    match c.resolved with
    | none => none
    | some (status, loc) =>
      if status ≠ 302 then none
      else
        let bn := pathBase loc
        if bn = [] then none
        else if pat bn then some loc else none

/-- `base a ≤ base b`, the non-strict companion of the `sort.Slice`
comparator `path.Base(results[i]) < path.Base(results[j])`. -/
def baseLe (a b : GoStr) : Prop := goStrLt (pathBase b) (pathBase a) = false

instance : DecidableRel baseLe := fun a b => by unfold baseLe; infer_instance

/-- The candidate-resolution reduction of `SearchXLSURL` (giro.go, after the
index-page crawl): collect qualifying Locations (the result channel has
capacity 1024 and non-blocking sends, so at most the first 1024 are kept),
return "not found" wrapping the joined per-candidate errors when none
qualify, otherwise sort ascending by `path.Base` and return the last. -/
def searchFromCandidates (pat : GoStr → Bool) (cands : List Candidate) :
    Except GoError GoStr :=
  let results := (cands.filterMap (qualify pat)).take 1024
  let errs := cands.flatMap Candidate.errAcc
  if results = [] then .error (.wrapPair .notFound (.join errs))
  else .ok ((List.insertionSort baseLe results).getLastD [])

/-- All characters are ASCII decimal digits. -/
def isDigits (l : GoStr) : Bool := l.all isDigitChar

/-- A separator of the `EHT` date form: `[_-]`. -/
def sepChar (c : Char) : Bool := c == '_' || c == '-'

/-- The extension alternation `(pdf|xlsx?)` of `DefaultPattern`. -/
def extOK (e : GoStr) : Bool :=
  e == "pdf".toList || e == "xls".toList || e == "xlsx".toList

/-- The middle alternation of the `EHT_` branch of `DefaultPattern`:
`[0-9]{8} | [0-9]{4}[_-][0-9]{2}[_-][0-9]{2} | 2[0-9]{5}`. -/
def ehtMid (m : GoStr) : Bool :=
  (m.length == 8 && isDigits m) ||
  (match m with
   | [a, b, c, d, s1, e, f, s2, g, h] =>
     isDigits [a, b, c, d] && sepChar s1 && isDigits [e, f] && sepChar s2 &&
       isDigits [g, h]
   | _ => false) ||
  (match m with
   | '2' :: rest => rest.length == 5 && isDigits rest
   | _ => false)

/-- Not the literal dot character. -/
def notDot (c : Char) : Bool := c != '.'

/-- The `EHT_<mid>\.(pdf|xlsx?)` branch of `DefaultPattern`.  Every
alternative of `mid` and of the extension is dot-free, so a matching string
decomposes uniquely at its first `'.'` after the `EHT_` prefix. -/
def ehtBranch : GoStr → Bool
  | 'E' :: 'H' :: 'T' :: '_' :: rest =>
    let mid := rest.takeWhile notDot
    match rest.dropWhile notDot with
    | '.' :: ext => ehtMid mid && extOK ext
    | _ => false
  | _ => false

/-- The `AVT_[0-9]{2}_[0-9]{2}_2[0-9]{3}\.(pdf|xlsx?)` branch of
`DefaultPattern`. -/
def avtBranch : GoStr → Bool
  | 'A' :: 'V' :: 'T' :: '_' :: a :: b :: '_' :: c :: d :: '_' :: '2' :: e :: f ::
      g :: '.' :: ext =>
    isDigits [a, b] && isDigits [c, d] && isDigits [e, f, g] && extOK ext
  | _ => false

/-- `DefaultPattern` (giro.go):
`^(.*-xls-.*$|EHT_([0-9]{8}|[0-9]{4}[_-][0-9]{2}[_-][0-9]{2}|2[0-9]{5})\.(pdf|xlsx?)|AVT_[0-9]{2}_[0-9]{2}_2[0-9]{3}\.(pdf|xlsx?))$`
as a whole-string matcher (the pattern is anchored on both sides). -/
def defaultPatternMatch (s : GoStr) : Bool :=
  goContains s "-xls-".toList || ehtBranch s || avtBranch s

example : defaultPatternMatch "EHT_20210401.pdf".toList = true := by decide
example : defaultPatternMatch "EHT_20210401.xlsx".toList = true := by decide
example : defaultPatternMatch "EHT_2021-04-01.xls".toList = true := by decide
example : defaultPatternMatch "EHT_221401.xlsx".toList = true := by decide
example : defaultPatternMatch "AVT_01_02_2023.xls".toList = true := by decide
example : defaultPatternMatch "AVT_01_02_1999.xls".toList = false := by decide
example : defaultPatternMatch "readme.txt".toList = false := by decide
example : defaultPatternMatch "some-xls-export".toList = true := by decide
example : defaultPatternMatch "EHT_2021041.xlsx".toList = false := by decide

/-- The validity invariant claimed for output records: 8-byte branch code,
non-empty name, and postal code or address non-empty. -/
def ValidRec (h : Hitelezo) : Prop :=
  golen h.Bankszerv = 8 ∧ h.Nev ≠ [] ∧ (h.Irszam ≠ [] ∨ h.Cim ≠ [])

instance : DecidablePred ValidRec := fun h => by unfold ValidRec; infer_instance

/-- An environment whose external collaborators all hand back empty data. -/
def envInert : ParseEnv :=
  { tabulaCSV := .ok [], tabulaWait := none, pdftotextOut := .ok [],
    pdftotextWait := none, xlsxOpen := .ok [], xlsOpen := .openFail }

/-- A 1024-byte input starting with the `%PDF-1` magic. -/
def pdfInput : List Nat := pdfMagic ++ List.replicate 1018 32

/-- A 1024-byte input with no recognizable magic (routed to the
spreadsheet path). -/
def zeroInput : List Nat := List.replicate 1024 0

/-- A tabula CSV row with an 8-byte code and an empty name. -/
def c1Row : List GoStr := ["12345678".toList, [], [], []]

/-- The unvalidated record `parsePDFTabula` builds from `c1Row`. -/
def c1Bad : Hitelezo := ⟨"12345678".toList, [], [], [], []⟩

/-- Environment: tabula succeeds with the single row `c1Row`. -/
def envC1 : ParseEnv := { envInert with tabulaCSV := .ok [c1Row] }

/-- Environment: tabula succeeds with a single all-empty row. -/
def envC2 : ParseEnv := { envInert with tabulaCSV := .ok [[[], [], [], []]] }

/-- xlsx sheet for the order counterexample: header, then rows A, B, C, D in
this encounter order, where only B (empty name) fails the cleanup test. -/
def rowsC3 : List (List GoStr) :=
  [["H1".toList, "H2".toList, "H3".toList, "H4".toList],
   ["10000001".toList, "NevA".toList, "1111".toList, "CimA".toList],
   ["10000002".toList, [], "1112".toList, "CimB".toList],
   ["10000003".toList, "NevC".toList, "1113".toList, "CimC".toList],
   ["10000004".toList, "NevD".toList, "1114".toList, "CimD".toList]]

def envC3 : ParseEnv := { envInert with xlsxOpen := .ok rowsC3 }

def recA : Hitelezo := ⟨"10000001".toList, [], "NevA".toList, "1111".toList, "CimA".toList⟩
def recC : Hitelezo := ⟨"10000003".toList, [], "NevC".toList, "1113".toList, "CimC".toList⟩
def recD : Hitelezo := ⟨"10000004".toList, [], "NevD".toList, "1114".toList, "CimD".toList⟩

/-- The `parseTXT` input of the claim: four lines then a form feed. -/
def c8Input : List Char :=
  ("10002003\nMagyar Államkincstár\n1139\nBudapest, Váci út 71.\n\x0C").toList

/-- The single record the claim expects from `c8Input`. -/
def c8Rec : Hitelezo :=
  ⟨"10002003".toList, [], "Magyar Államkincstár".toList, "1139".toList,
   "Budapest, Váci út 71.".toList⟩

/-- The record whose normalization is not idempotent: the split leaves a
leading space on the address. -/
def c7Rec : Hitelezo := ⟨"10002003".toList, [], "Nev".toList, [], "1139  Bp".toList⟩

/-- A candidate resolving (status 302) to a location with base `b.xlsx`. -/
def candLow : Candidate := ⟨true, some (302, "/documents/b.xlsx".toList), []⟩

/-- A candidate resolving (status 302) to a location with base `z.xlsx`. -/
def candHigh : Candidate := ⟨true, some (302, "/documents/z.xlsx".toList), []⟩

/-- 1025 qualifying candidates: the channel capacity (1024) drops the last,
whose filename is the lexicographically largest. -/
def candsOverflow : List Candidate := List.replicate 1024 candLow ++ [candHigh]

/-- A candidate whose every resolution attempt failed. -/
def candFail : Candidate := ⟨true, none, [.msg "connection refused".toList]⟩

/-- Two qualifying candidates for the C4 witness. -/
def candsTwo : List Candidate := [candLow, candHigh]

set_option maxRecDepth 100000

/-- C8: on the four-line page `["10002003", "Magyar Államkincstár", "1139",
"Budapest, Váci út 71."]` followed by a form-feed byte, `parseTXT` returns
exactly one record, `{Bankszerv: "10002003", Nev: "Magyar Államkincstár",
Irszam: "1139", Cim: "Budapest, Váci út 71."}`, and no error. -/
theorem parseTXT_single_page_record : parseTXT c8Input = ([c8Rec], none) := by
  rfl

/-- C9 (implicit): any input stream shorter than 1024 bytes makes `Parse`
return the `io.EOF` error from the 1024-byte peek, and no records. -/
theorem parse_short_input_errors (input : List Nat) (env : ParseEnv)
    (h : input.length < 1024) : Parse input env = .ok ([], some .eof) := by
  unfold Parse
  simp [h]

/-- Witness for C9: the 6-byte stream consisting of just the `%PDF-1` magic
(a prefix of a perfectly parsable document) is rejected. -/
theorem parse_short_input_errors_witness :
    Parse pdfMagic envInert = .ok ([], some .eof) :=
  parse_short_input_errors pdfMagic envInert (by decide)

/-- Counterexample to C1: on the PDF path (tabula succeeding), a CSV row
with an 8-byte code but empty name reaches the output of `Parse`
unvalidated, so not every returned record is valid. -/
theorem parse_pdf_path_invalid_record :
    Parse pdfInput envC1 = .ok ([c1Bad], none) ∧ ¬ ValidRec c1Bad := by
  constructor
  · rfl
  · decide

/-- Counterexample to C2: the PDF path returns without the final cleanup
pass, so `Parse` can return a record whose branch code is empty. -/
theorem parse_pdf_path_skips_cleanup :
    Parse pdfInput envC2 = .ok ([emptyHitelezo], none) ∧
      emptyHitelezo.Bankszerv = [] ∧ emptyHitelezo.Nev = [] := by
  refine ⟨rfl, rfl, rfl⟩

/-- Counterexample to C3: the cleanup pass removes the invalid record B by
swapping the last record into its slot, so from encounter order
A, B, C, D (B invalid) `Parse` returns A, D, C — not the encounter order
A, C, D of the kept records. -/
theorem parse_cleanup_reorders :
    Parse zeroInput envC3 = .ok ([recA, recD, recC], none) ∧
      ([recA, recD, recC] : List Hitelezo) ≠ [recA, recC, recD] := by
  constructor
  · rfl
  · decide

/-- Counterexample to C7: normalization is not idempotent — when the
postal-code split removes the space at offset 4 and the next character is
again a space, the second normalization trims the address further. -/
theorem normalizeRec_not_idempotent :
    normalizeRec (normalizeRec c7Rec) ≠ normalizeRec c7Rec := by decide

/-- Counterexample to C6: `AVT_01_02_1999.xls` has the form
`AVT_NN_NN_YYYY.xls` but does not match `DefaultPattern`, whose year field
is `2[0-9]{3}` (the year must begin with the digit 2). -/
theorem defaultPattern_avt_1999_fails :
    defaultPatternMatch "AVT_01_02_1999.xls".toList = false := by decide

/-- Every element of `removeSwap hit i` (for `i < hit.length`) is an
element of `hit`. -/
theorem mem_of_mem_removeSwap {hit : List Hitelezo} {i : Nat} {x : Hitelezo}
    (hi : i < hit.length) (hx : x ∈ removeSwap hit i) : x ∈ hit := by
  unfold removeSwap at hx
  have hx2 := (List.dropLast_sublist _).subset hx
  rcases List.mem_or_eq_of_mem_set hx2 with h | h
  · exact h
  · subst h
    have hl : hit.length - 1 < hit.length := by omega
    rw [List.getD_eq_getElem _ _ hl]
    exact List.getElem_mem hl

/-- Every element the cleanup loop returns was an element of its input. -/
theorem mem_of_mem_cleanupAux :
    ∀ (fuel : Nat) (hit : List Hitelezo) (i : Nat) (x : Hitelezo),
      x ∈ cleanupAux fuel hit i → x ∈ hit := by
  intro fuel
  induction fuel with
  | zero => intro hit i x hx; exact hx
  | succ fuel ih =>
    intro hit i x hx
    unfold cleanupAux at hx
    by_cases hi : i < hit.length
    · simp only [hi, if_true] at hx
      by_cases hv : cleanupInvalid (hit.getD i emptyHitelezo)
      · simp only [hv, if_true] at hx
        exact mem_of_mem_removeSwap hi (ih _ _ _ hx)
      · simp only [hv, if_false] at hx
        exact ih _ _ _ hx
    · simp only [hi, if_false] at hx
      exact hx

/-- Cleanup-loop invariant: with enough fuel and all positions before `i`
already known valid, every record in the result passes the cleanup test. -/
theorem cleanupAux_all_valid :
    ∀ (fuel : Nat) (hit : List Hitelezo) (i : Nat),
      hit.length - i ≤ fuel →
      (∀ j, j < i → j < hit.length → cleanupInvalid (hit.getD j emptyHitelezo) = false) →
      ∀ x ∈ cleanupAux fuel hit i, cleanupInvalid x = false := by
  intro fuel
  induction fuel with
  | zero =>
    intro hit i hfuel hpre x hx
    unfold cleanupAux at hx
    have hi : hit.length ≤ i := by omega
    rcases List.mem_iff_getElem.mp hx with ⟨j, hj, hjx⟩
    have := hpre j (by omega) hj
    rwa [List.getD_eq_getElem _ _ hj, hjx] at this
  | succ fuel ih =>
    intro hit i hfuel hpre x hx
    unfold cleanupAux at hx
    by_cases hi : i < hit.length
    · simp only [hi, if_true] at hx
      by_cases hv : cleanupInvalid (hit.getD i emptyHitelezo)
      · simp only [hv, if_true] at hx
        have hlen : (removeSwap hit i).length = hit.length - 1 := by
          unfold removeSwap
          rw [List.length_dropLast, List.length_set]
        refine ih (removeSwap hit i) i (by omega) ?_ x hx
        intro j hj hj2
        have hj3 : j < hit.length - 1 := by omega
        have hj4 : j < hit.length := by omega
        have hj5 : j < ((hit.set i (hit.getD (hit.length - 1) emptyHitelezo)).dropLast).length := by
          rw [List.length_dropLast, List.length_set]; omega
        have heq : (removeSwap hit i).getD j emptyHitelezo = hit.getD j emptyHitelezo := by
          show ((hit.set i (hit.getD (hit.length - 1) emptyHitelezo)).dropLast).getD j
              emptyHitelezo = _
          rw [List.getD_eq_getElem _ _ hj5, List.getD_eq_getElem _ _ hj4,
            List.getElem_dropLast]
          simp only [List.getElem_set]
          have : ¬ i = j := by omega
          simp [this]
        rw [heq]
        exact hpre j hj hj4
      · simp only [hv, if_false] at hx
        refine ih hit (i + 1) (by omega) ?_ x hx
        intro j hj hj2
        by_cases hji : j < i
        · exact hpre j hji hj2
        · have : j = i := by omega
          subst this
          exact eq_false_of_ne_true hv
    · simp only [hi, if_false] at hx
      rcases List.mem_iff_getElem.mp hx with ⟨j, hj, hjx⟩
      have := hpre j (by omega) hj
      rwa [List.getD_eq_getElem _ _ hj, hjx] at this

/-- Every record surviving the final cleanup pass passes the cleanup test. -/
theorem cleanup_valid {hit : List Hitelezo} {x : Hitelezo} (hx : x ∈ cleanup hit) :
    cleanupInvalid x = false :=
  cleanupAux_all_valid hit.length hit 0 (by omega) (by omega) x hx

/-- Every record surviving the final cleanup pass was in its input. -/
theorem cleanup_mem {hit : List Hitelezo} {x : Hitelezo} (hx : x ∈ cleanup hit) :
    x ∈ hit :=
  mem_of_mem_cleanupAux hit.length hit 0 x hx

/-- The cleanup loop leaves a list of valid records unchanged. -/
theorem cleanupAux_id_of_valid :
    ∀ (fuel : Nat) (hit : List Hitelezo) (i : Nat),
      (∀ x ∈ hit, cleanupInvalid x = false) → cleanupAux fuel hit i = hit := by
  intro fuel
  induction fuel with
  | zero => intro hit i _; rfl
  | succ fuel ih =>
    intro hit i hall
    unfold cleanupAux
    by_cases hi : i < hit.length
    · have hmem : hit.getD i emptyHitelezo ∈ hit := by
        rw [List.getD_eq_getElem _ _ hi]; exact List.getElem_mem hi
      simp only [hi, if_true, hall _ hmem, if_false]
      exact ih hit (i + 1) hall
    · simp only [hi, if_false]

/-- Membership in a `checkAppend` result: the record either was in the
accumulator or is the normalized candidate, accepted with an 8-byte code. -/
theorem mem_checkAppend {recs : List Hitelezo} {r x : Hitelezo}
    (hx : x ∈ checkAppend recs r) :
    x ∈ recs ∨ (x = normalizeRec r ∧ golen (normalizeRec r).Bankszerv = 8) := by
  unfold checkAppend at hx
  by_cases hc : normalizeRec r ≠ emptyHitelezo ∧ golen (normalizeRec r).Bankszerv = 8
  · rw [if_pos hc] at hx
    rcases List.mem_append.mp hx with h | h
    · exact Or.inl h
    · exact Or.inr ⟨List.mem_singleton.mp h, hc.2⟩
  · rw [if_neg hc] at hx
    exact Or.inl hx

/-- The xlsx data-row loop only ever appends records with 8-byte codes. -/
theorem parseXLSXRows_code8 :
    ∀ (rows : List (List GoStr)) (noIr : Bool) (recs l : List Hitelezo),
      (∀ x ∈ recs, golen x.Bankszerv = 8) →
      parseXLSXRows noIr recs rows = .ok l →
      ∀ x ∈ l, golen x.Bankszerv = 8 := by
  intro rows
  induction rows with
  | nil =>
    intro noIr recs l hrec hp
    unfold parseXLSXRows at hp
    cases hp
    exact hrec
  | cons row rest ih =>
    intro noIr recs l hrec hp
    unfold parseXLSXRows at hp
    by_cases hlen : row.length < 4
    · simp only [hlen, if_true] at hp
      cases hp
    · simp only [hlen, if_false] at hp
      refine ih noIr _ l ?_ hp
      intro x hx
      rcases mem_checkAppend hx with h | ⟨h1, h2⟩
      · exact hrec x h
      · rwa [h1]

/-- `ParseXLSX` only returns records with 8-byte codes. -/
theorem ParseXLSX_code8 {rows : List (List GoStr)} {l : List Hitelezo}
    (hp : ParseXLSX rows = .ok l) : ∀ x ∈ l, golen x.Bankszerv = 8 := by
  unfold ParseXLSX at hp
  cases rows with
  | nil =>
    cases hp
    intro x hx
    cases hx
  | cons header rest =>
    by_cases hlen : header.length < 4
    · simp only [hlen, if_true] at hp
      cases hp
    · simp only [hlen, if_false] at hp
      exact parseXLSXRows_code8 rest _ [] l (by intro x hx; cases hx) hp

/-- The xls row loop only ever appends records with 8-byte codes. -/
theorem parseXLSRows_code8 :
    ∀ (rows : List (Option (List GoStr))) (b : Bool) (recs : List Hitelezo),
      (∀ x ∈ recs, golen x.Bankszerv = 8) →
      ∀ x ∈ parseXLSRows recs b rows, golen x.Bankszerv = 8 := by
  intro rows
  induction rows with
  | nil =>
    intro b recs hrec x hx
    cases b <;> exact hrec x hx
  | cons row rest ih =>
    intro b recs hrec x hx
    cases b with
    | true => exact ih false recs hrec x hx
    | false =>
      cases row with
      | none => exact ih false recs hrec x hx
      | some cells =>
        refine ih false _ ?_ x hx
        intro y hy
        rcases mem_checkAppend hy with h | ⟨h1, h2⟩
        · exact hrec y h
        · rwa [h1]

/-- `ParseXLSXm` only returns records with 8-byte codes. -/
theorem ParseXLSXm_code8 {o : Except GoError (List (List GoStr))}
    {l : List Hitelezo} {e : Option GoError} (hp : ParseXLSXm o = .ok (l, e)) :
    ∀ x ∈ l, golen x.Bankszerv = 8 := by
  cases o with
  | error err =>
    simp only [ParseXLSXm] at hp
    cases hp
    intro x hx
    cases hx
  | ok rows =>
    simp only [ParseXLSXm] at hp
    split at hp
    · cases hp
    · cases hp
      exact ParseXLSX_code8 (by assumption)

/-- `ParseXLS` only returns records with 8-byte codes. -/
theorem ParseXLS_code8 {a : XlsResult} {o : Except GoError (List (List GoStr))}
    {l : List Hitelezo} {e : Option GoError} (hp : ParseXLS a o = .ok (l, e)) :
    ∀ x ∈ l, golen x.Bankszerv = 8 := by
  unfold ParseXLS at hp
  cases a with
  | openFail => exact ParseXLSXm_code8 hp
  | noSheet =>
    cases hp
    intro x hx
    cases hx
  | sheet rows =>
    cases hp
    exact parseXLSRows_code8 rows true [] (by intro x hx; cases hx)

/-- The records of any non-PDF (spreadsheet-path) `Parse` result are a
cleanup output of a spreadsheet-parser output. -/
theorem parse_nonpdf_shape {input : List Nat} {env : ParseEnv}
    {hit : List Hitelezo} {err : Option GoError}
    (hpdf : pdfMagic.isPrefixOf input = false)
    (hp : Parse input env = .ok (hit, err)) :
    hit = [] ∨
      ∃ hit0 e0, hit = cleanup hit0 ∧
        (ParseXLSXm env.xlsxOpen = .ok (hit0, e0) ∨
          ParseXLS env.xlsOpen env.xlsxOpen = .ok (hit0, e0)) := by
  unfold Parse at hp
  by_cases hlen : input.length < 1024
  · rw [if_pos hlen] at hp
    cases hp
    exact Or.inl rfl
  · rw [if_neg hlen, hpdf] at hp
    simp only [Bool.false_eq_true, if_false] at hp
    split at hp
    · cases hp
    · rename_i hit0 err0 hm
      cases err0 with
      | none =>
        cases hp
        exact Or.inr ⟨hit0, none, rfl, Or.inl hm⟩
      | some e =>
        dsimp only at hp
        by_cases hfb : errTextContains e "not a valid zip".toList ||
            errTextContains e "unsupported".toList
        · rw [if_pos hfb] at hp
          cases hxls : ParseXLS env.xlsOpen env.xlsxOpen with
          | error p => rw [hxls] at hp; cases hp
          | ok pr =>
            rw [hxls] at hp
            obtain ⟨hit2, err2⟩ := pr
            dsimp only at hp
            cases hp
            exact Or.inr ⟨hit2, _, rfl, Or.inr rfl⟩
        · rw [if_neg hfb] at hp
          cases hp
          exact Or.inr ⟨hit0, some e, rfl, Or.inl hm⟩

/-- C1 amended: through the modern- and legacy-spreadsheet paths (any input
not routed to `ParsePDF`), every record `Parse` returns is valid: 8-byte
branch code (from `checkAppend`), non-empty name, and non-empty postal code
or address (from the final cleanup pass).  The unamended claim fails on the
PDF path, which returns tabula CSV rows unvalidated and skips the cleanup
(see `parse_pdf_path_invalid_record`). -/
theorem parse_spreadsheet_records_valid (input : List Nat) (env : ParseEnv)
    (hit : List Hitelezo) (err : Option GoError)
    (hpdf : pdfMagic.isPrefixOf input = false)
    (hp : Parse input env = .ok (hit, err)) :
    ∀ h ∈ hit, ValidRec h := by
  intro h hh
  rcases parse_nonpdf_shape hpdf hp with rfl | ⟨hit0, e0, rfl, hsrc⟩
  · cases hh
  · have hcode : golen h.Bankszerv = 8 := by
      rcases hsrc with hm | hm
      · exact ParseXLSXm_code8 hm h (cleanup_mem hh)
      · exact ParseXLS_code8 hm h (cleanup_mem hh)
    have hclean := cleanup_valid hh
    unfold cleanupInvalid at hclean
    simp only [Bool.or_eq_false_iff, Bool.and_eq_false_iff, List.isEmpty_iff,
      List.isEmpty_eq_false] at hclean
    refine ⟨hcode, ?_, ?_⟩ <;> tauto

/-- Witness for the C1 theorem: a concrete spreadsheet input whose single
record is returned and is valid. -/
theorem parse_spreadsheet_records_valid_witness : ValidRec recA :=
  parse_spreadsheet_records_valid zeroInput
    { envInert with xlsxOpen := .ok [["H1".toList, "H2".toList, "H3".toList, "H4".toList],
        ["10000001".toList, "NevA".toList, "1111".toList, "CimA".toList]] }
    [recA] none rfl rfl recA (List.mem_singleton.mpr rfl)

/-- C2 amended: on the spreadsheet paths the final cleanup pass runs, so no
returned record has an empty branch code, an empty name, or both postal
code and address empty.  The unamended claim ("any path") fails on the PDF
path, which returns without the cleanup pass
(see `parse_pdf_path_skips_cleanup`). -/
theorem parse_spreadsheet_cleanup_applied (input : List Nat) (env : ParseEnv)
    (hit : List Hitelezo) (err : Option GoError)
    (hpdf : pdfMagic.isPrefixOf input = false)
    (hp : Parse input env = .ok (hit, err)) :
    ∀ h ∈ hit, ¬(h.Bankszerv = [] ∨ h.Nev = [] ∨ (h.Irszam = [] ∧ h.Cim = [])) := by
  intro h hh
  rcases parse_nonpdf_shape hpdf hp with rfl | ⟨hit0, e0, rfl, _⟩
  · cases hh
  · have hclean := cleanup_valid hh
    unfold cleanupInvalid at hclean
    simp only [Bool.or_eq_false_iff, Bool.and_eq_false_iff, List.isEmpty_iff,
      List.isEmpty_eq_false] at hclean
    tauto

/-- Witness for the C2 theorem. -/
theorem parse_spreadsheet_cleanup_applied_witness :
    ¬(recA.Bankszerv = [] ∨ recA.Nev = [] ∨ (recA.Irszam = [] ∧ recA.Cim = [])) :=
  parse_spreadsheet_cleanup_applied zeroInput
    { envInert with xlsxOpen := .ok [["H1".toList, "H2".toList, "H3".toList, "H4".toList],
        ["10000001".toList, "NevA".toList, "1111".toList, "CimA".toList]] }
    [recA] none rfl rfl recA (List.mem_singleton.mpr rfl)

/-- C3 amended: each parser emits records in encounter order, but the final
cleanup pass removes invalid records by swapping the last element into the
removed slot, which can permute the kept records
(see `parse_cleanup_reorders`).  When every parsed record already passes the
cleanup test, the cleanup is the identity, so the returned sequence is
exactly the encounter order. -/
theorem cleanup_id_of_all_valid (hit : List Hitelezo)
    (hall : ∀ x ∈ hit, cleanupInvalid x = false) : cleanup hit = hit :=
  cleanupAux_id_of_valid hit.length hit 0 hall

/-- Witness for the C3 theorem: on an all-valid list the cleanup changes
nothing. -/
theorem cleanup_id_of_all_valid_witness :
    cleanup [recA, recC, recD] = [recA, recC, recD] :=
  cleanup_id_of_all_valid [recA, recC, recD] (by decide)

/-- The tabula CSV loop succeeds (never reaches the out-of-range access)
when every row has at least 4 fields. -/
theorem tabulaRows_ok_of_wide :
    ∀ (rows : List (List GoStr)) (acc : List Hitelezo),
      (∀ r ∈ rows, 4 ≤ r.length) → ∃ out, tabulaRows acc rows = .ok out := by
  intro rows
  induction rows with
  | nil => intro acc _; exact ⟨acc, rfl⟩
  | cons row rest ih =>
    intro acc hw
    unfold tabulaRows
    have h4 : ¬ row.length < 4 := by
      have := hw row (List.mem_cons_self row rest)
      omega
    rw [if_neg h4]
    exact ih _ (fun r hr => hw r (List.mem_cons_of_mem row hr))

/-- The xlsx loop succeeds when every row has at least 4 cells. -/
theorem parseXLSXRows_ok_of_wide :
    ∀ (rows : List (List GoStr)) (noIr : Bool) (acc : List Hitelezo),
      (∀ r ∈ rows, 4 ≤ r.length) → ∃ out, parseXLSXRows noIr acc rows = .ok out := by
  intro rows
  induction rows with
  | nil => intro noIr acc _; exact ⟨acc, rfl⟩
  | cons row rest ih =>
    intro noIr acc hw
    unfold parseXLSXRows
    have h4 : ¬ row.length < 4 := by
      have := hw row (List.mem_cons_self row rest)
      omega
    rw [if_neg h4]
    exact ih _ _ (fun r hr => hw r (List.mem_cons_of_mem row hr))

/-- C10 (implicit): `parsePDFTabula` indexes `row[0..3]` of every CSV row
and `ParseXLSX` indexes `row[3]` of the header and `row[0..3]` of every
data row without bounds checks.  These accesses are safe exactly under the
precondition that every row has at least 4 columns; a row with fewer fields
is an out-of-range access (runtime panic), exhibited here for a 1-field
CSV row, a 3-cell header row, and a 1-cell data row. -/
theorem row_indexing_needs_4_columns :
    (∀ rows : List (List GoStr), (∀ r ∈ rows, 4 ≤ r.length) →
      ∃ out, tabulaRows [] rows = .ok out) ∧
    (∀ rows : List (List GoStr), (∀ r ∈ rows, 4 ≤ r.length) →
      ∃ out, ParseXLSX rows = .ok out) ∧
    tabulaRows [] [["x".toList]] = .error .panicIdx ∧
    ParseXLSX [["a".toList, "b".toList, "c".toList]] = .error .panicIdx ∧
    ParseXLSX [["a".toList, "b".toList, "c".toList, "d".toList], ["x".toList]] =
      .error .panicIdx := by
  refine ⟨fun rows hw => tabulaRows_ok_of_wide rows [] hw, fun rows hw => ?_, rfl, rfl, rfl⟩
  cases rows with
  | nil => exact ⟨[], rfl⟩
  | cons header rest =>
    simp only [ParseXLSX]
    have h4 : ¬ header.length < 4 := by
      have := hw header (List.mem_cons_self header rest)
      omega
    rw [if_neg h4]
    exact parseXLSXRows_ok_of_wide rest _ []
      (fun r hr => hw r (List.mem_cons_of_mem header hr))

/-- Witness for C10: the universally quantified safety parts applied to a
concrete 4-column table. -/
theorem row_indexing_needs_4_columns_witness :
    (∃ out, tabulaRows []
      [["12345678".toList, "n".toList, "i".toList, "c".toList]] = .ok out) ∧
    (∃ out, ParseXLSX
      [["a".toList, "b".toList, "c".toList, "d".toList],
       ["12345678".toList, "n".toList, "i".toList, "c".toList]] = .ok out) :=
  ⟨row_indexing_needs_4_columns.1 _ (by decide),
   row_indexing_needs_4_columns.2.1 _ (by decide)⟩

/-- C5: when zero candidates qualify, `SearchXLSURL` returns no URL and the
error `fmt.Errorf("%w: %w", ErrNotFound, errors.Join(errs...))`, which
wraps the `ErrNotFound` sentinel together with the joined per-candidate
errors. -/
theorem searchFromCandidates_notFound (pat : GoStr → Bool) (cands : List Candidate)
    (h : cands.filterMap (qualify pat) = []) :
    searchFromCandidates pat cands =
      .error (.wrapPair .notFound (.join (cands.flatMap Candidate.errAcc))) ∧
    errorsIsNotFound
      (.wrapPair .notFound (.join (cands.flatMap Candidate.errAcc))) = true := by
  constructor
  · unfold searchFromCandidates
    rw [h]
    rfl
  · rfl

/-- Witness for C5: a single candidate whose resolution failed outright. -/
theorem searchFromCandidates_notFound_witness :
    searchFromCandidates defaultPatternMatch [candFail] =
      .error (.wrapPair .notFound (.join [.msg "connection refused".toList])) ∧
    errorsIsNotFound
      (.wrapPair .notFound (.join [.msg "connection refused".toList])) = true :=
  searchFromCandidates_notFound defaultPatternMatch [candFail] rfl

theorem goStrLt_irrefl : ∀ s : GoStr, goStrLt s s = false := by
  intro s
  induction s with
  | nil => rfl
  | cons a t ih => simp [goStrLt, ih]

theorem goStrLt_asymm : ∀ {a b : GoStr}, goStrLt a b = true → goStrLt b a = false := by
  intro a
  induction a with
  | nil =>
    intro b h
    cases b with
    | nil => simp [goStrLt] at h
    | cons y ys => rfl
  | cons x xs ih =>
    intro b h
    cases b with
    | nil => simp [goStrLt] at h
    | cons y ys =>
      simp only [goStrLt] at h ⊢
      rcases lt_trichotomy x y with hxy | hxy | hxy
      · simp [hxy, not_lt.mpr hxy.le]
      · subst hxy
        simp only [lt_irrefl, if_false] at h ⊢
        exact ih h
      · simp [hxy, not_lt.mpr hxy.le] at h

theorem goStrLt_trans : ∀ {a b c : GoStr}, goStrLt a b = true → goStrLt b c = true →
    goStrLt a c = true := by
  intro a
  induction a with
  | nil =>
    intro b c hab hbc
    cases b with
    | nil => simp [goStrLt] at hab
    | cons y ys =>
      cases c with
      | nil => simp [goStrLt] at hbc
      | cons z zs => rfl
  | cons x xs ih =>
    intro b c hab hbc
    cases b with
    | nil => simp [goStrLt] at hab
    | cons y ys =>
      cases c with
      | nil => simp [goStrLt] at hbc
      | cons z zs =>
        simp only [goStrLt] at hab hbc ⊢
        rcases lt_trichotomy x y with hxy | hxy | hxy
        · rcases lt_trichotomy y z with hyz | hyz | hyz
          · simp [hxy.trans hyz]
          · subst hyz; simp [hxy]
          · simp [hyz, not_lt.mpr hyz.le] at hbc
        · subst hxy
          rcases lt_trichotomy x z with hyz | hyz | hyz
          · simp [hyz]
          · subst hyz
            simp only [lt_irrefl, if_false] at hab hbc ⊢
            exact ih hab hbc
          · simp [hyz, not_lt.mpr hyz.le] at hbc
        · simp [hxy, not_lt.mpr hxy.le] at hab

theorem goStrLt_conn : ∀ {a b : GoStr}, goStrLt a b = false → goStrLt b a = false →
    a = b := by
  intro a
  induction a with
  | nil =>
    intro b hab _
    cases b with
    | nil => rfl
    | cons y ys => simp [goStrLt] at hab
  | cons x xs ih =>
    intro b hab hba
    cases b with
    | nil => simp [goStrLt] at hba
    | cons y ys =>
      simp only [goStrLt] at hab hba
      rcases lt_trichotomy x y with hxy | hxy | hxy
      · simp [hxy] at hab
      · subst hxy
        simp only [lt_irrefl, if_false] at hab hba
        rw [ih hab hba]
      · simp [hxy, not_lt.mpr hxy.le] at hba

instance : IsTotal GoStr baseLe where
  total a b := by
    unfold baseLe
    by_cases h : goStrLt (pathBase b) (pathBase a) = true
    · exact Or.inr (goStrLt_asymm h)
    · exact Or.inl (by simpa using h)

instance : IsTrans GoStr baseLe where
  trans a b c hab hbc := by
    unfold baseLe at *
    by_cases h : goStrLt (pathBase c) (pathBase a) = true
    · exfalso
      by_cases hbc2 : goStrLt (pathBase b) (pathBase c) = true
      · have := goStrLt_trans hbc2 h
        rw [this] at hab
        cases hab
      · have : pathBase c = pathBase b := goStrLt_conn hbc (by simpa using hbc2)
        rw [this] at h
        rw [h] at hab
        cases hab
    · simpa using h

theorem baseLe_refl (a : GoStr) : baseLe a a := goStrLt_irrefl _

/-- In a nonempty list, `getLastD` is a member. -/
theorem getLastD_mem_of_ne_nil : ∀ (l : List GoStr) (d : GoStr), l ≠ [] →
    l.getLastD d ∈ l := by
  intro l
  induction l with
  | nil => intro d h; cases h rfl
  | cons a t ih =>
    intro d _
    cases t with
    | nil => simp
    | cons b u =>
      have := ih a (by simp)
      simpa using Or.inr this

/-- In a `baseLe`-sorted list, every element is `baseLe` the last one. -/
theorem sorted_baseLe_getLastD : ∀ (l : List GoStr) (a : GoStr),
    List.Sorted baseLe (a :: l) → ∀ x ∈ a :: l, baseLe x ((a :: l).getLastD []) := by
  intro l
  induction l with
  | nil =>
    intro a _ x hx
    rcases List.mem_singleton.mp hx with rfl
    exact baseLe_refl x
  | cons b t ih =>
    intro a hs x hx
    have hlast : ((a :: b :: t).getLastD []) = ((b :: t).getLastD []) := by
      simp [List.getLastD_cons]
    rw [hlast]
    rcases List.mem_cons.mp hx with rfl | hx2
    · have hmem : ((b :: t).getLastD []) ∈ b :: t :=
        getLastD_mem_of_ne_nil _ _ (by simp)
      exact (List.sorted_cons.mp hs).1 _ hmem
    · exact ih b (List.sorted_cons.mp hs).2 x hx2

/-- C4 amended: whenever at least two — and at most 1024, the result
channel's capacity — candidates qualify (their redirect Location filename
matches the pattern), `SearchXLSURL` returns a qualifying URL whose
filename (`path.Base`) is lexicographically maximal among the qualifiers.
The unamended claim fails above the channel capacity, where a qualifying
URL is dropped by the non-blocking send
(see `searchFromCandidates_overflow_drops_max`). -/
theorem searchFromCandidates_picks_max (pat : GoStr → Bool) (cands : List Candidate)
    (h2 : 2 ≤ (cands.filterMap (qualify pat)).length)
    (hcap : (cands.filterMap (qualify pat)).length ≤ 1024) :
    ∃ r, searchFromCandidates pat cands = .ok r ∧
      r ∈ cands.filterMap (qualify pat) ∧
      ∀ s ∈ cands.filterMap (qualify pat), baseLe s r := by
  set res := cands.filterMap (qualify pat) with hres
  have htake : res.take 1024 = res := List.take_of_length_le hcap
  have hne : res ≠ [] := by
    intro h
    rw [h] at h2
    simp at h2
  have hsne : List.insertionSort baseLe res ≠ [] := by
    intro h
    have := List.length_insertionSort baseLe res
    rw [h] at this
    simp at this
    exact hne (List.eq_nil_of_length_eq_zero this.symm)
  refine ⟨(List.insertionSort baseLe res).getLastD [], ?_, ?_, ?_⟩
  · unfold searchFromCandidates
    rw [← hres, htake, if_neg hne]
  · have hmem := getLastD_mem_of_ne_nil _ [] hsne
    exact (List.perm_insertionSort baseLe res).subset hmem
  · intro s hs
    have hs2 : s ∈ List.insertionSort baseLe res :=
      (List.perm_insertionSort baseLe res).symm.subset hs
    have hsorted := List.sorted_insertionSort baseLe res
    cases hsort : List.insertionSort baseLe res with
    | nil => rw [hsort] at hs2; cases hs2
    | cons a t =>
      rw [hsort] at hs2 hsorted
      exact sorted_baseLe_getLastD t a hsorted s hs2

/-- Witness for C4: two qualifying candidates; the returned location's
filename `z.xlsx` dominates both. -/
theorem searchFromCandidates_picks_max_witness :
    ∃ r, searchFromCandidates (fun _ => true) candsTwo = .ok r ∧
      r ∈ candsTwo.filterMap (qualify (fun _ => true)) ∧
      ∀ s ∈ candsTwo.filterMap (qualify (fun _ => true)), baseLe s r :=
  searchFromCandidates_picks_max (fun _ => true) candsTwo (by decide) (by decide)

/-- Counterexample to C4 as stated: with 1025 qualifying candidates the
non-blocking send to the capacity-1024 result channel drops one qualifier —
here the one whose filename `z.xlsx` is the lexicographically largest — so
the returned URL's filename `b.xlsx` is not the maximum over all
qualifiers. -/
theorem searchFromCandidates_overflow_drops_max :
    searchFromCandidates (fun _ => true) candsOverflow = .ok "/documents/b.xlsx".toList ∧
    candHigh ∈ candsOverflow ∧
    qualify (fun _ => true) candHigh = some "/documents/z.xlsx".toList ∧
    goStrLt (pathBase "/documents/b.xlsx".toList)
      (pathBase "/documents/z.xlsx".toList) = true := by
  refine ⟨rfl, ?_, rfl, by decide⟩
  exact List.mem_append_right _ (List.mem_singleton.mpr rfl)

/-- `takeWhile`/`dropWhile` split at the first failing element. -/
theorem takeWhile_dropWhile_split {p : Char → Bool} :
    ∀ (l : List Char) (c : Char) (r : List Char),
      (∀ x ∈ l, p x = true) → p c = false →
      ((l ++ c :: r).takeWhile p = l ∧ (l ++ c :: r).dropWhile p = c :: r) := by
  intro l
  induction l with
  | nil =>
    intro c r _ hc
    simp [List.takeWhile_cons, List.dropWhile_cons, hc]
  | cons a t ih =>
    intro c r hall hc
    have ha : p a = true := hall a (List.mem_cons_self a t)
    have := ih c r (fun x hx => hall x (List.mem_cons_of_mem a hx)) hc
    simp [List.takeWhile_cons, List.dropWhile_cons, ha, this.1, this.2]

/-- A decimal digit is not a dot. -/
theorem isDigitChar_notDot {c : Char} (h : isDigitChar c = true) : notDot c = true := by
  unfold notDot
  rcases eq_or_ne c '.' with rfl | hne
  · simp [isDigitChar] at h
  · simp [hne]

/-- C6 amended: `DefaultPattern` matches every `EHT_YYYYMMDD.xlsx` and
`EHT_YYYYMMDD.pdf` (any 8 digits), matches `AVT_NN_NN_YYYY.xls` whenever
the year begins with the digit 2 (`2[0-9]{3}`), and rejects `readme.txt`.
The unamended claim fails for `AVT_` years outside 2000–2999
(see `defaultPattern_avt_1999_fails`). -/
theorem defaultPattern_matches_claimed_forms :
    (∀ d : GoStr, d.length = 8 → isDigits d = true →
      defaultPatternMatch ("EHT_".toList ++ d ++ ".xlsx".toList) = true ∧
      defaultPatternMatch ("EHT_".toList ++ d ++ ".pdf".toList) = true) ∧
    (∀ a b c d e f g : Char, isDigits [a, b, c, d, e, f, g] = true →
      defaultPatternMatch
        ("AVT_".toList ++ [a, b, '_', c, d, '_', '2', e, f, g] ++ ".xls".toList) = true) ∧
    defaultPatternMatch "readme.txt".toList = false := by
  have heht : ∀ (d : GoStr) (ext : GoStr), d.length = 8 → isDigits d = true →
      extOK ext = true →
      ehtBranch ('E' :: 'H' :: 'T' :: '_' :: (d ++ '.' :: ext)) = true := by
    intro d ext hlen hdig hext
    have hall : ∀ x ∈ d, notDot x = true := by
      intro x hx
      exact isDigitChar_notDot (by
        have := List.all_eq_true.mp hdig x hx
        simpa using this)
    have hsplit := takeWhile_dropWhile_split d '.' ext hall (by decide)
    simp only [ehtBranch, hsplit.1, hsplit.2]
    have hmid : ehtMid d = true := by
      simp only [ehtMid, hlen, Bool.or_eq_true, Bool.and_eq_true]
      exact Or.inl (Or.inl ⟨by simp, hdig⟩)
    simp [hmid, hext]
  refine ⟨fun d hlen hdig => ?_, fun a b c d e f g h => ?_, by decide⟩
  · have h1 : "EHT_".toList ++ d ++ ".xlsx".toList =
        'E' :: 'H' :: 'T' :: '_' :: (d ++ '.' :: "xlsx".toList) := by
      simp
    have h2 : "EHT_".toList ++ d ++ ".pdf".toList =
        'E' :: 'H' :: 'T' :: '_' :: (d ++ '.' :: "pdf".toList) := by
      simp
    constructor
    · rw [h1]
      simp only [defaultPatternMatch, Bool.or_eq_true]
      exact Or.inl (Or.inr (by simpa using heht d "xlsx".toList hlen hdig (by decide)))
    · rw [h2]
      simp only [defaultPatternMatch, Bool.or_eq_true]
      exact Or.inl (Or.inr (by simpa using heht d "pdf".toList hlen hdig (by decide)))
  · simp only [isDigits, List.all_cons, List.all_nil, Bool.and_eq_true] at h
    have havt : avtBranch
        ('A' :: 'V' :: 'T' :: '_' :: a :: b :: '_' :: c :: d :: '_' :: '2' :: e ::
          f :: g :: '.' :: "xls".toList) = true := by
      simp only [avtBranch, isDigits, List.all_cons, List.all_nil]
      simp [h.1, h.2.1, h.2.2.1, h.2.2.2.1, h.2.2.2.2.1, h.2.2.2.2.2.1,
        h.2.2.2.2.2.2.1, extOK]
    have h3 : "AVT_".toList ++ [a, b, '_', c, d, '_', '2', e, f, g] ++ ".xls".toList =
        'A' :: 'V' :: 'T' :: '_' :: a :: b :: '_' :: c :: d :: '_' :: '2' :: e ::
          f :: g :: '.' :: "xls".toList := by
      simp
    rw [h3]
    simp only [defaultPatternMatch, Bool.or_eq_true]
    exact Or.inr (by simpa using havt)

/-- Witness for C6: the universally quantified parts applied at concrete
digit strings. -/
theorem defaultPattern_matches_claimed_forms_witness :
    (defaultPatternMatch ("EHT_".toList ++ "20240401".toList ++ ".xlsx".toList) = true ∧
      defaultPatternMatch ("EHT_".toList ++ "20240401".toList ++ ".pdf".toList) = true) ∧
    defaultPatternMatch
      ("AVT_".toList ++ ['0', '1', '_', '0', '2', '_', '2', '0', '2', '3'] ++
        ".xls".toList) = true :=
  ⟨defaultPattern_matches_claimed_forms.1 "20240401".toList (by decide) (by decide),
   defaultPattern_matches_claimed_forms.2.1 '0' '1' '0' '2' '0' '2' '3' (by decide)⟩

theorem head?_dropWhile_false {p : Char → Bool} :
    ∀ {l : List Char} {c : Char}, (l.dropWhile p).head? = some c → p c = false := by
  intro l
  induction l with
  | nil => intro c h; simp at h
  | cons a t ih =>
    intro c h
    rw [List.dropWhile_cons] at h
    by_cases hp : p a = true
    · rw [if_pos hp] at h
      exact ih h
    · rw [if_neg hp] at h
      simp only [List.head?_cons, Option.some_inj] at h
      subst h
      simpa using hp

theorem dropWhile_eq_self_of_head {p : Char → Bool} {l : List Char}
    (h : ∀ c, l.head? = some c → p c = false) : l.dropWhile p = l := by
  cases l with
  | nil => rfl
  | cons a t =>
    rw [List.dropWhile_cons, if_neg]
    simp [h a rfl]

theorem mem_of_head?_eq {l : List Char} {c : Char} (h : l.head? = some c) : c ∈ l := by
  cases l with
  | nil => simp at h
  | cons a t =>
    simp only [List.head?_cons, Option.some_inj] at h
    subst h
    exact List.mem_cons_self a t

/-- The right trim preserves the head of the list. -/
theorem head?_rightTrim {m : List Char} {c : Char}
    (hc : ((m.reverse.dropWhile goIsSpace).reverse).head? = some c) :
    m.head? = some c := by
  have hsuf : m.reverse.dropWhile goIsSpace <:+ m.reverse := List.dropWhile_suffix _
  have hpre : (m.reverse.dropWhile goIsSpace).reverse <+: m := by
    have := List.reverse_prefix.mpr hsuf
    rwa [List.reverse_reverse] at this
  obtain ⟨k, hk⟩ := hpre
  rw [← hk, List.head?_append, hc]
  rfl

theorem goTrimSpace_idem (s : List Char) : goTrimSpace (goTrimSpace s) = goTrimSpace s := by
  unfold goTrimSpace
  have hdw : (((s.dropWhile goIsSpace).reverse.dropWhile goIsSpace).reverse).dropWhile
      goIsSpace = ((s.dropWhile goIsSpace).reverse.dropWhile goIsSpace).reverse := by
    apply dropWhile_eq_self_of_head
    intro c hc
    exact head?_dropWhile_false (head?_rightTrim hc)
  rw [hdw, List.reverse_reverse, List.dropWhile_idempotent]

theorem goTrimSpace_subset {s : List Char} : ∀ x ∈ goTrimSpace s, x ∈ s := by
  intro x hx
  unfold goTrimSpace at hx
  rw [List.mem_reverse] at hx
  have h1 := (List.dropWhile_suffix (l := (s.dropWhile goIsSpace).reverse)
    goIsSpace).sublist.subset hx
  rw [List.mem_reverse] at h1
  exact (List.dropWhile_suffix goIsSpace).sublist.subset h1

theorem removeNulls_eq_self_of {l : List Char} (h : ∀ c ∈ l, ¬ c = Char.ofNat 0) :
    removeNulls l = l := by
  unfold removeNulls
  refine List.filter_eq_self.mpr ?_
  intro a ha
  simpa using h a ha

theorem ne_null_of_mem_removeNulls {l : List Char} {c : Char}
    (h : c ∈ removeNulls l) : ¬ c = Char.ofNat 0 := by
  unfold removeNulls at h
  simpa using (List.mem_filter.mp h).2

/-- Members of a normalized field are never the NUL character. -/
theorem ne_null_of_mem_normField {s : List Char} {c : Char}
    (h : c ∈ normField s) : ¬ c = Char.ofNat 0 :=
  ne_null_of_mem_removeNulls (goTrimSpace_subset c h)

theorem normField_idem (s : List Char) : normField (normField s) = normField s := by
  unfold normField
  rw [removeNulls_eq_self_of (fun c hc => ne_null_of_mem_removeNulls
    (goTrimSpace_subset c hc)), goTrimSpace_idem]

theorem goTrimSpace_eq_self_of {l : List Char} (h : ∀ c ∈ l, goIsSpace c = false) :
    goTrimSpace l = l := by
  unfold goTrimSpace
  have h1 : l.dropWhile goIsSpace = l :=
    dropWhile_eq_self_of_head (fun c hc => h c (mem_of_head?_eq hc))
  rw [h1]
  have h2 : l.reverse.dropWhile goIsSpace = l.reverse :=
    dropWhile_eq_self_of_head (fun c hc =>
      h c (List.mem_reverse.mp (mem_of_head?_eq hc)))
  rw [h2, List.reverse_reverse]

theorem isDigitChar_not_space {c : Char} (h : isDigitChar c = true) :
    goIsSpace c = false := by
  unfold isDigitChar at h
  simp only [Bool.and_eq_true, decide_eq_true_eq] at h
  have h1 : 48 ≤ c.toNat := Char.le_def.mp h.1
  have h2 : c.toNat ≤ 57 := Char.le_def.mp h.2
  simp only [goIsSpace]
  simp only [Bool.or_eq_false_iff, Bool.and_eq_false_iff, beq_eq_false_iff_ne, ne_eq,
    decide_eq_false_iff_not, Nat.not_le]
  omega

theorem isDigitChar_ne_null {c : Char} (h : isDigitChar c = true) :
    ¬ c = Char.ofNat 0 := by
  rcases eq_or_ne c (Char.ofNat 0) with rfl | hne
  · simp [isDigitChar] at h
  · exact hne

theorem normField_eq_self_of_digits {l : List Char} (h : l.all isDigitChar = true) :
    normField l = l := by
  have hall := List.all_eq_true.mp h
  unfold normField
  rw [removeNulls_eq_self_of (fun c hc => isDigitChar_ne_null (by simpa using hall c hc))]
  exact goTrimSpace_eq_self_of (fun c hc => isDigitChar_not_space (by simpa using hall c hc))

/-- C7 amended: the record normalization of `checkAppend` is idempotent up
to a final re-trim of the address: a second application returns the same
record except that the address field is whitespace-trimmed once more.  The
two differ exactly when the postal-code split fired and the character after
the removed space was again whitespace (see `normalizeRec_not_idempotent`);
in every other case `goTrimSpace` is the identity on the address and the
normalization is literally idempotent. -/
theorem normalizeRec_idempotent_up_to_trim (h : Hitelezo) :
    normalizeRec (normalizeRec h) =
      { normalizeRec h with Cim := goTrimSpace (normalizeRec h).Cim } := by
  by_cases hcond : (normField h.Irszam == [] && decide (5 < golen (normField h.Cim)) &&
      ((normField h.Cim).take 4).all isDigitChar &&
      ((normField h.Cim).get? 4 == some ' ')) = true
  · have hr : normalizeRec h =
        { Bankszerv := normField h.Bankszerv, BIC := h.BIC, Nev := normField h.Nev,
          Irszam := (normField h.Cim).take 4, Cim := (normField h.Cim).drop 5 } := by
      unfold normalizeRec
      rw [if_pos hcond]
    rw [hr]
    simp only [Bool.and_eq_true, beq_iff_eq] at hcond
    obtain ⟨⟨⟨hi0, hlen5⟩, hdig⟩, hsp⟩ := hcond
    have htake4 : normField ((normField h.Cim).take 4) = (normField h.Cim).take 4 :=
      normField_eq_self_of_digits hdig
    have hdrop : normField ((normField h.Cim).drop 5) =
        goTrimSpace ((normField h.Cim).drop 5) := by
      have hnn : removeNulls ((normField h.Cim).drop 5) = (normField h.Cim).drop 5 :=
        removeNulls_eq_self_of (fun c hc =>
          ne_null_of_mem_normField (List.mem_of_mem_drop hc))
      show goTrimSpace (removeNulls ((normField h.Cim).drop 5)) = _
      rw [hnn]
    have hne : ((normField h.Cim).take 4) ≠ [] := by
      have h4 : 4 < (normField h.Cim).length := by
        rcases List.get?_eq_some.mp hsp with ⟨hlt, _⟩
        exact hlt
      have : ((normField h.Cim).take 4).length = 4 := by
        rw [List.length_take]
        omega
      intro hnil
      rw [hnil] at this
      simp at this
    unfold normalizeRec
    simp only [htake4, hdrop, normField_idem]
    rw [if_neg]
    · simp only [Bool.and_eq_true, beq_iff_eq]
      intro hfalse
      exact hne hfalse.1.1.1
    
  · have hr : normalizeRec h =
        { Bankszerv := normField h.Bankszerv, BIC := h.BIC, Nev := normField h.Nev,
          Irszam := normField h.Irszam, Cim := normField h.Cim } := by
      unfold normalizeRec
      rw [if_neg hcond]
    rw [hr]
    have htrim : goTrimSpace (normField h.Cim) = normField h.Cim := by
      unfold normField
      exact goTrimSpace_idem _
    unfold normalizeRec
    simp only [normField_idem]
    rw [if_neg hcond, htrim]
